import Mathlib

/-!
Verification development for the fact-based memory subsystem of the `neo`
repository (`src/neo/memory`).  Python float values are modelled as exact
rationals.  The two irrational primitives used by the code — the square root
inside `np.linalg.norm` and the power `0.5 ** x` inside the recency factor —
are modelled as explicit function parameters (`sq`, `halfPow`); theorems state
only the properties of those functions that the real functions satisfy.
-/

namespace Neo

/-- FactKind enumeration from `src/neo/memory/models.py` (class FactKind). -/
inductive FactKind where
  | constraint
  | architecture
  | pattern
  | review
  | decision
  | known_unknown
  | failure
deriving DecidableEq, Repr

/-- FactScope enumeration from `src/neo/memory/models.py` (class FactScope). -/
inductive FactScope where
  | globalScope
  | org
  | project
  | session
deriving DecidableEq, Repr

/-- Metadata attached to a fact, from `src/neo/memory/models.py`
(class FactMetadata).  Timestamps and confidence are floats, modelled as
rationals. -/
structure FactMetadata where
  created_at : ℚ
  last_accessed : ℚ
  access_count : Nat
  source_file : String
  source_prompt : String
  confidence : ℚ
deriving DecidableEq, Repr

/-- A single fact, from `src/neo/memory/models.py` (class Fact).  The numpy
embedding vector is a list of rationals; `none` models the Python `None`. -/
structure Fact where
  id : String
  subject : String
  body : String
  kind : FactKind
  scope : FactScope
  org_id : String
  project_id : String
  is_valid : Bool
  superseded_by : Option String
  supersedes : Option String
  depends_on : List String
  needs_review : Bool
  metadata : FactMetadata
  embedding : Option (List ℚ)
  tags : List String
deriving DecidableEq, Repr

/-- Dot product of two vectors, as computed by `np.dot` on 1-d arrays. -/
def dotList (a b : List ℚ) : ℚ :=
  (List.zipWith (fun x y => x * y) a b).sum

/-- Cosine similarity, from `FactStore._cosine_similarity`
(`src/neo/memory/store.py` lines 386-393); the identical static method also
appears as `ContextAssembler._cosine_similarity`
(`src/neo/memory/context.py` lines 123-130).  `np.linalg.norm v` is
`sqrt (dot v v)`; the square root is the parameter `sq`. -/
def cosineSimilarity (sq : ℚ → ℚ) (a b : List ℚ) : ℚ :=
  let normA := sq (dotList a a)
  let normB := sq (dotList b b)
  if normA = 0 ∨ normB = 0 then 0
  else dotList a b / (normA * normB)

/-- SUPERSESSION_THRESHOLD = 0.85 (`src/neo/memory/store.py` line 29). -/
def supersessionThreshold : ℚ := 17 / 20

/-- One iteration of the loop in `FactStore._find_supersession_candidate`
(`src/neo/memory/store.py` lines 316-327).  The accumulator is the pair
(best_match as an index into the facts list, best_sim); the Python code keeps
the matched object itself, which the index identifies. -/
def candStep (sq : ℚ → ℚ) (ne : List ℚ) (s : FactScope) (k : FactKind)
    (i : Nat) (f : Fact) (acc : Option Nat × ℚ) : Option Nat × ℚ :=
  if f.is_valid = true ∧ f.scope = s ∧ f.kind = k then
    match f.embedding with
    | none => acc
    | some e =>
      if supersessionThreshold < cosineSimilarity sq ne e ∧
          acc.2 < cosineSimilarity sq ne e then
        (some i, cosineSimilarity sq ne e)
      else acc
  else acc

/-- Fold of `candStep` over the facts list carrying the running index,
mirroring `for fact in self._facts` in `_find_supersession_candidate`. -/
def findCandAux (sq : ℚ → ℚ) (ne : List ℚ) (s : FactScope) (k : FactKind) :
    List Fact → Nat → Option Nat × ℚ → Option Nat × ℚ
  | [], _, acc => acc
  | f :: rest, i, acc =>
      findCandAux sq ne s k rest (i + 1) (candStep sq ne s k i f acc)

/-- FactStore._find_supersession_candidate (`src/neo/memory/store.py` lines
305-329): best valid fact of the same scope and kind with cosine similarity
above the threshold, returned as an index into the facts list (`none` when the
new fact has no embedding or nothing qualifies). -/
def findSupersessionCandidate (sq : ℚ → ℚ) (facts : List Fact) (nf : Fact) :
    Option Nat :=
  match nf.embedding with
  | none => none
  | some ne => (findCandAux sq ne nf.scope nf.kind facts 0 (none, 0)).1

/-- FactStore._cascade_needs_review (`src/neo/memory/store.py` lines 345-350):
mark every still-valid fact that depends on the superseded id. -/
def cascadeNeedsReview (supersededId : String) (facts : List Fact) :
    List Fact :=
  facts.map fun f =>
    if supersededId ∈ f.depends_on ∧ f.is_valid = true then
      { f with needs_review := true }
    else f

/-- The Fact constructed inside `FactStore.add_fact`
(`src/neo/memory/store.py` lines 137-152).  The uuid (`newId`), the clock
(`now`) and the embedding-provider result (`emb`) are external effects passed
as parameters. -/
def mkNewFact (orgId projectId newId : String) (now : ℚ)
    (emb : Option (List ℚ)) (subject body : String) (kind : FactKind)
    (scope : FactScope) (confidence : ℚ) (sourceFile sourcePrompt : String)
    (tags dependsOn : List String) : Fact :=
  { id := newId
    subject := subject
    body := body
    kind := kind
    scope := scope
    org_id := orgId
    project_id := projectId
    is_valid := true
    superseded_by := none
    supersedes := none
    depends_on := dependsOn
    needs_review := false
    metadata :=
      { created_at := now
        last_accessed := now
        access_count := 0
        source_file := sourceFile
        source_prompt := sourcePrompt
        confidence := confidence }
    embedding := emb
    tags := tags }

/-- Mutations applied by `FactStore._supersede` (`src/neo/memory/store.py`
lines 331-343) to the old fact: invalidate it and point it at the new fact. -/
def supersedeOld (newFactId : String) (c : Fact) : Fact :=
  { c with is_valid := false, superseded_by := some newFactId }

/-- Mutations applied by `FactStore._supersede` to the new fact: link it back
to the old fact and carry the old confidence forward with a +0.05 boost,
capped at 1.0. -/
def supersedeNew (c fact : Fact) : Fact :=
  { fact with
    supersedes := some c.id
    metadata := { fact.metadata with
      confidence := min 1 (c.metadata.confidence + 1 / 20) } }

/-- FactStore.add_fact (`src/neo/memory/store.py` lines 102-161) together with
`_supersede` (lines 331-343): build the fact, look for a supersession
candidate, and if one is found invalidate it, link the two facts, carry the
confidence forward with a +0.05 boost capped at 1.0, and cascade
needs_review; finally append the new fact.  Returns the updated facts list
and the new fact.  The trailing `self.save()` disk write is modelled
separately (`saveFile`). -/
def addFact (sq : ℚ → ℚ) (facts : List Fact) (orgId projectId newId : String)
    (now : ℚ) (emb : Option (List ℚ)) (subject body : String)
    (kind : FactKind) (scope : FactScope) (confidence : ℚ)
    (sourceFile sourcePrompt : String) (tags dependsOn : List String) :
    List Fact × Fact :=
  let fact := mkNewFact orgId projectId newId now emb subject body kind scope
    confidence sourceFile sourcePrompt tags dependsOn
  match findSupersessionCandidate sq facts fact with
  | none => (facts ++ [fact], fact)
  | some i =>
    match facts[i]? with
    | none => (facts ++ [fact], fact)
    | some c =>
      let newFact := supersedeNew c fact
      let facts1 := facts.set i (supersedeOld fact.id c)
      let facts2 := cascadeNeedsReview c.id facts1
      (facts2 ++ [newFact], newFact)

end Neo

namespace Neo

/-- Bound on the similarities of all valid, partition-matching, embedded facts
at indices below `m`.  This is the knowledge accumulated by the candidate
loop after processing the first `m` facts. -/
def simLeAll (sq : ℚ → ℚ) (ne : List ℚ) (s : FactScope) (k : FactKind)
    (facts : List Fact) (m : Nat) (v : ℚ) : Prop :=
  ∀ j, j < m → ∀ g e, facts[j]? = some g → g.is_valid = true → g.scope = s →
    g.kind = k → g.embedding = some e → cosineSimilarity sq ne e ≤ v

/-- Loop invariant of `_find_supersession_candidate`: either no fact so far
qualified (accumulator still (None, 0.0) and every matching fact seen so far
sits at or below the threshold), or the accumulator holds the index of a
qualifying fact whose similarity dominates every matching fact seen so far. -/
def candInv (sq : ℚ → ℚ) (ne : List ℚ) (s : FactScope) (k : FactKind)
    (facts : List Fact) (m : Nat) (acc : Option Nat × ℚ) : Prop :=
  (acc = (none, 0) ∧ simLeAll sq ne s k facts m supersessionThreshold) ∨
  (∃ j c e, acc.1 = some j ∧ acc.2 = cosineSimilarity sq ne e ∧
    facts[j]? = some c ∧ c.is_valid = true ∧ c.scope = s ∧ c.kind = k ∧
    c.embedding = some e ∧ supersessionThreshold < acc.2 ∧
    simLeAll sq ne s k facts m acc.2)

lemma simLeAll_of_le {sq ne s k facts} {m m' : Nat} {v : ℚ}
    (h : simLeAll sq ne s k facts m v) (hm : m' ≤ m) :
    simLeAll sq ne s k facts m' v :=
  fun j hj => h j (lt_of_lt_of_le hj hm)

lemma simLeAll_mono {sq ne s k facts} {m : Nat} {v w : ℚ}
    (h : simLeAll sq ne s k facts m v) (hvw : v ≤ w) :
    simLeAll sq ne s k facts m w :=
  fun j hj g e h1 h2 h3 h4 h5 => le_trans (h j hj g e h1 h2 h3 h4 h5) hvw

lemma simLeAll_succ {sq ne s k facts} {m : Nat} {v : ℚ}
    (h : simLeAll sq ne s k facts m v)
    (hnew : ∀ g e, facts[m]? = some g → g.is_valid = true → g.scope = s →
      g.kind = k → g.embedding = some e → cosineSimilarity sq ne e ≤ v) :
    simLeAll sq ne s k facts (m + 1) v := by
  intro j hj g e h1 h2 h3 h4 h5
  rcases Nat.lt_succ_iff_lt_or_eq.mp hj with hj' | rfl
  · exact h j hj' g e h1 h2 h3 h4 h5
  · exact hnew g e h1 h2 h3 h4 h5

lemma supersessionThreshold_pos : (0 : ℚ) < supersessionThreshold := by
  norm_num [supersessionThreshold]

/-- One `candStep` preserves the loop invariant. -/
lemma candStep_inv {sq ne s k facts} {i0 : Nat} {c : Fact}
    (hc : facts[i0]? = some c) {acc : Option Nat × ℚ}
    (h : candInv sq ne s k facts i0 acc) :
    candInv sq ne s k facts (i0 + 1) (candStep sq ne s k i0 c acc) := by
  have hc_uniq : ∀ g : Fact, facts[i0]? = some g → g = c := by
    intro g hg
    rw [hc] at hg
    exact (Option.some.inj hg).symm
  by_cases hm : c.is_valid = true ∧ c.scope = s ∧ c.kind = k
  · cases he : c.embedding with
    | none =>
      have hstep : candStep sq ne s k i0 c acc = acc := by
        unfold candStep
        rw [if_pos hm, he]
      rw [hstep]
      rcases h with ⟨h1, h2⟩ | ⟨j, cc, e, h1, h2, h3, h4, h5, h6, h7, h8, h9⟩
      · refine Or.inl ⟨h1, simLeAll_succ h2 ?_⟩
        intro g e hg _ _ _ hge
        rw [hc_uniq g hg] at hge
        rw [he] at hge
        exact absurd hge (by simp)
      · refine Or.inr ⟨j, cc, e, h1, h2, h3, h4, h5, h6, h7, h8,
          simLeAll_succ h9 ?_⟩
        intro g e' hg _ _ _ hge
        rw [hc_uniq g hg] at hge
        rw [he] at hge
        exact absurd hge (by simp)
    | some e =>
      by_cases hlt : supersessionThreshold < cosineSimilarity sq ne e ∧
          acc.2 < cosineSimilarity sq ne e
      · have hstep : candStep sq ne s k i0 c acc =
            (some i0, cosineSimilarity sq ne e) := by
          unfold candStep
          rw [if_pos hm, he]
          exact if_pos hlt
        rw [hstep]
        have hbound : simLeAll sq ne s k facts i0 (cosineSimilarity sq ne e) := by
          rcases h with ⟨h1, h2⟩ | ⟨j, cc, e', h1, h2, h3, h4, h5, h6, h7, h8, h9⟩
          · exact simLeAll_mono h2 (le_of_lt hlt.1)
          · exact simLeAll_mono h9 (le_of_lt hlt.2)
        refine Or.inr ⟨i0, c, e, rfl, rfl, hc, hm.1, hm.2.1, hm.2.2, he,
          hlt.1, simLeAll_succ hbound ?_⟩
        intro g e' hg _ _ _ hge
        rw [hc_uniq g hg] at hge
        rw [he] at hge
        rw [Option.some.inj hge]
      · have hstep : candStep sq ne s k i0 c acc = acc := by
          unfold candStep
          rw [if_pos hm, he]
          exact if_neg hlt
        rw [hstep]
        rcases h with ⟨h1, h2⟩ | ⟨j, cc, e', h1, h2, h3, h4, h5, h6, h7, h8, h9⟩
        · refine Or.inl ⟨h1, simLeAll_succ h2 ?_⟩
          intro g e' hg _ _ _ hge
          rw [hc_uniq g hg] at hge
          rw [he] at hge
          rw [← Option.some.inj hge]
          by_contra hgt
          push_neg at hgt
          have hacc2 : acc.2 = 0 := by rw [h1]
          exact hlt ⟨hgt, by
            rw [hacc2]
            exact lt_trans supersessionThreshold_pos hgt⟩
        · refine Or.inr ⟨j, cc, e', h1, h2, h3, h4, h5, h6, h7, h8,
            simLeAll_succ h9 ?_⟩
          intro g e'' hg _ _ _ hge
          rw [hc_uniq g hg] at hge
          rw [he] at hge
          rw [← Option.some.inj hge]
          by_contra hgt
          push_neg at hgt
          exact hlt ⟨lt_trans h8 hgt, hgt⟩
  · have hstep : candStep sq ne s k i0 c acc = acc := by
      unfold candStep
      rw [if_neg hm]
    rw [hstep]
    have hvac : ∀ g e, facts[i0]? = some g → g.is_valid = true → g.scope = s →
        g.kind = k → g.embedding = some e →
        cosineSimilarity sq ne e ≤ supersessionThreshold → True := fun _ _ _ _ _ _ _ _ => trivial
    rcases h with ⟨h1, h2⟩ | ⟨j, cc, e, h1, h2, h3, h4, h5, h6, h7, h8, h9⟩
    · refine Or.inl ⟨h1, simLeAll_succ h2 ?_⟩
      intro g e hg hv hs hk _
      rw [hc_uniq g hg] at hv hs hk
      exact absurd ⟨hv, hs, hk⟩ hm
    · refine Or.inr ⟨j, cc, e, h1, h2, h3, h4, h5, h6, h7, h8,
        simLeAll_succ h9 ?_⟩
      intro g e' hg hv hs hk _
      rw [hc_uniq g hg] at hv hs hk
      exact absurd ⟨hv, hs, hk⟩ hm

/-- Folding the candidate loop from position `i0` to the end preserves the
invariant, establishing it for the whole list. -/
lemma findCandAux_inv (sq : ℚ → ℚ) (ne : List ℚ) (s : FactScope)
    (k : FactKind) (facts : List Fact) :
    ∀ (n i0 : Nat) (acc : Option Nat × ℚ), facts.length - i0 = n →
      candInv sq ne s k facts i0 acc →
      candInv sq ne s k facts facts.length
        (findCandAux sq ne s k (facts.drop i0) i0 acc) := by
  intro n
  induction n with
  | zero =>
    intro i0 acc hn hinv
    have hle : facts.length ≤ i0 := Nat.le_of_sub_eq_zero hn
    rw [List.drop_eq_nil_of_le hle]
    simp only [findCandAux]
    rcases hinv with ⟨h1, h2⟩ | ⟨j, cc, e, h1, h2, h3, h4, h5, h6, h7, h8, h9⟩
    · exact Or.inl ⟨h1, simLeAll_of_le h2 hle⟩
    · exact Or.inr ⟨j, cc, e, h1, h2, h3, h4, h5, h6, h7, h8,
        simLeAll_of_le h9 hle⟩
  | succ n ih =>
    intro i0 acc hn hinv
    have hlt : i0 < facts.length := by omega
    rw [List.drop_eq_getElem_cons hlt]
    simp only [findCandAux]
    exact ih (i0 + 1) _ (by omega)
      (candStep_inv (List.getElem?_eq_getElem hlt) hinv)

/-- Soundness of `_find_supersession_candidate`: a returned candidate is a
valid fact of the new fact's scope and kind, has an embedding whose cosine
similarity with the new embedding strictly exceeds the threshold, and its
similarity dominates that of every other valid, same-partition, embedded
fact. -/
lemma findSupersessionCandidate_some_spec {sq : ℚ → ℚ} {facts : List Fact}
    {nf : Fact} {ne : List ℚ} {i : Nat} (hemb : nf.embedding = some ne)
    (hfind : findSupersessionCandidate sq facts nf = some i) :
    ∃ c e, facts[i]? = some c ∧ c.is_valid = true ∧ c.scope = nf.scope ∧
      c.kind = nf.kind ∧ c.embedding = some e ∧
      supersessionThreshold < cosineSimilarity sq ne e ∧
      simLeAll sq ne nf.scope nf.kind facts facts.length
        (cosineSimilarity sq ne e) := by
  have h0 : candInv sq ne nf.scope nf.kind facts 0 (none, 0) :=
    Or.inl ⟨rfl, fun j hj => absurd hj (Nat.not_lt_zero j)⟩
  have hinv := findCandAux_inv sq ne nf.scope nf.kind facts
    (facts.length - 0) 0 (none, 0) rfl h0
  rw [List.drop_zero] at hinv
  unfold findSupersessionCandidate at hfind
  rw [hemb] at hfind
  have hfind2 : (findCandAux sq ne nf.scope nf.kind facts 0 (none, 0)).1 =
      some i := hfind
  rcases hinv with ⟨h1, _⟩ | ⟨j, cc, e, h1, h2, h3, h4, h5, h6, h7, h8, h9⟩
  · rw [h1] at hfind2
    exact absurd hfind2 (by simp)
  · rw [h1] at hfind2
    have hij : j = i := Option.some.inj hfind2
    subst hij
    rw [h2] at h8 h9
    exact ⟨cc, e, h3, h4, h5, h6, h7, h8, h9⟩

/-- Completeness of `_find_supersession_candidate`: when some valid fact of
the same scope and kind has similarity above the threshold, a candidate is
returned. -/
lemma findSupersessionCandidate_exists {sq : ℚ → ℚ} {facts : List Fact}
    {nf : Fact} {ne : List ℚ} (hemb : nf.embedding = some ne)
    (hex : ∃ (j : Nat) (g : Fact) (e : List ℚ), facts[j]? = some g ∧
      g.is_valid = true ∧ g.scope = nf.scope ∧ g.kind = nf.kind ∧
      g.embedding = some e ∧
      supersessionThreshold < cosineSimilarity sq ne e) :
    ∃ i, findSupersessionCandidate sq facts nf = some i := by
  have h0 : candInv sq ne nf.scope nf.kind facts 0 (none, 0) :=
    Or.inl ⟨rfl, fun j hj => absurd hj (Nat.not_lt_zero j)⟩
  have hinv := findCandAux_inv sq ne nf.scope nf.kind facts
    (facts.length - 0) 0 (none, 0) rfl h0
  rw [List.drop_zero] at hinv
  unfold findSupersessionCandidate
  rw [hemb]
  show ∃ i, (findCandAux sq ne nf.scope nf.kind facts 0 (none, 0)).1 = some i
  rcases hinv with ⟨h1, h2⟩ | ⟨j, cc, e, h1, h2, h3, h4, h5, h6, h7, h8, h9⟩
  · obtain ⟨j, g, e, hj, hv, hs, hk, hge, hgt⟩ := hex
    have hjlt : j < facts.length := (List.getElem?_eq_some.mp hj).1
    exact absurd (h2 j hjlt g e hj hv hs hk hge) (not_le.mpr hgt)
  · exact ⟨j, by rw [h1]⟩

end Neo

namespace Neo

lemma findSupersessionCandidate_emb_some {sq : ℚ → ℚ} {facts : List Fact}
    {nf : Fact} {i : Nat}
    (h : findSupersessionCandidate sq facts nf = some i) :
    ∃ ne, nf.embedding = some ne := by
  unfold findSupersessionCandidate at h
  cases hne : nf.embedding with
  | none => rw [hne] at h; exact absurd h (by simp)
  | some ne => exact ⟨ne, rfl⟩

/-- Unfolding of `add_fact` when no supersession candidate is found. -/
lemma addFact_none_eq (sq : ℚ → ℚ) (facts : List Fact)
    (orgId projectId newId : String) (now : ℚ) (emb : Option (List ℚ))
    (subject body : String) (kind : FactKind) (scope : FactScope)
    (confidence : ℚ) (sourceFile sourcePrompt : String)
    (tags dependsOn : List String)
    (hfind : findSupersessionCandidate sq facts (mkNewFact orgId projectId
      newId now emb subject body kind scope confidence sourceFile
      sourcePrompt tags dependsOn) = none) :
    addFact sq facts orgId projectId newId now emb subject body kind scope
        confidence sourceFile sourcePrompt tags dependsOn =
      (facts ++ [mkNewFact orgId projectId newId now emb subject body kind
        scope confidence sourceFile sourcePrompt tags dependsOn],
       mkNewFact orgId projectId newId now emb subject body kind scope
        confidence sourceFile sourcePrompt tags dependsOn) := by
  simp only [addFact, hfind]

/-- Unfolding of `add_fact` when a supersession candidate at index `i` is
found. -/
lemma addFact_some_eq (sq : ℚ → ℚ) (facts : List Fact)
    (orgId projectId newId : String) (now : ℚ) (emb : Option (List ℚ))
    (subject body : String) (kind : FactKind) (scope : FactScope)
    (confidence : ℚ) (sourceFile sourcePrompt : String)
    (tags dependsOn : List String) (i : Nat) (c : Fact)
    (hfind : findSupersessionCandidate sq facts (mkNewFact orgId projectId
      newId now emb subject body kind scope confidence sourceFile
      sourcePrompt tags dependsOn) = some i)
    (hc : facts[i]? = some c) :
    addFact sq facts orgId projectId newId now emb subject body kind scope
        confidence sourceFile sourcePrompt tags dependsOn =
      (cascadeNeedsReview c.id (facts.set i (supersedeOld newId c)) ++
        [supersedeNew c (mkNewFact orgId projectId newId now emb subject body
          kind scope confidence sourceFile sourcePrompt tags dependsOn)],
       supersedeNew c (mkNewFact orgId projectId newId now emb subject body
        kind scope confidence sourceFile sourcePrompt tags dependsOn)) := by
  simp only [addFact, hfind, hc]
  rfl

/-- Cascading is index-wise application of the marking function. -/
lemma cascadeNeedsReview_getElem (supersededId : String) (facts : List Fact)
    (j : Nat) :
    (cascadeNeedsReview supersededId facts)[j]? =
      (facts[j]?).map fun f =>
        if supersededId ∈ f.depends_on ∧ f.is_valid = true then
          { f with needs_review := true }
        else f := by
  unfold cascadeNeedsReview
  rw [List.getElem?_map]

lemma cascadeNeedsReview_length (supersededId : String) (facts : List Fact) :
    (cascadeNeedsReview supersededId facts).length = facts.length := by
  unfold cascadeNeedsReview
  rw [List.length_map]

end Neo

namespace Neo

lemma supersedeOld_not_marked (newFactId cid : String) (c : Fact) :
    (if cid ∈ (supersedeOld newFactId c).depends_on ∧
        (supersedeOld newFactId c).is_valid = true then
      { supersedeOld newFactId c with needs_review := true }
    else supersedeOld newFactId c) = supersedeOld newFactId c := by
  rw [if_neg]
  simp [supersedeOld]

/-- Entry `i` of the facts list produced by a superseding `add_fact` call is
the invalidated candidate (the cascade leaves it untouched because it is no
longer valid). -/
lemma addFact_some_at_cand (facts : List Fact) (newId cid : String) (i : Nat)
    (c : Fact) (hi : i < facts.length) :
    (cascadeNeedsReview cid (facts.set i (supersedeOld newId c)))[i]? =
      some (supersedeOld newId c) := by
  rw [cascadeNeedsReview_getElem, List.getElem?_set_self hi,
    Option.map_some']
  rw [supersedeOld_not_marked]

lemma addFact_some_at_other (facts : List Fact) (newId cid : String)
    (i j : Nat) (c f : Fact) (hj : facts[j]? = some f) (hne : i ≠ j) :
    (cascadeNeedsReview cid (facts.set i (supersedeOld newId c)))[j]? =
      some (if cid ∈ f.depends_on ∧ f.is_valid = true then
        { f with needs_review := true } else f) := by
  rw [cascadeNeedsReview_getElem, List.getElem?_set_ne hne, hj,
    Option.map_some']

lemma append_getElem?_lt {l₁ l₂ : List Fact} {j : Nat} (h : j < l₁.length) :
    (l₁ ++ l₂)[j]? = l₁[j]? := by
  rw [List.getElem?_append, if_pos h]

/-- C1: if some currently valid fact of the same scope and kind has cosine
similarity with the new fact's embedding strictly above the 0.85 threshold,
then `add_fact` supersedes the best-matching (highest-similarity) such fact:
it becomes invalid with `superseded_by` set to the new fact's id, the new
fact's `supersedes` is set to the old fact's id, and the new fact's
confidence equals min(1.0, old confidence + 0.05). -/
theorem addFact_supersedes_best (sq : ℚ → ℚ) (facts : List Fact)
    (orgId projectId newId : String) (now : ℚ) (ne : List ℚ)
    (subject body : String) (kind : FactKind) (scope : FactScope)
    (confidence : ℚ) (sourceFile sourcePrompt : String)
    (tags dependsOn : List String)
    (hex : ∃ (j : Nat) (g : Fact) (e : List ℚ), facts[j]? = some g ∧
      g.is_valid = true ∧ g.scope = scope ∧ g.kind = kind ∧
      g.embedding = some e ∧
      supersessionThreshold < cosineSimilarity sq ne e) :
    ∃ (i : Nat) (c : Fact) (e : List ℚ),
      facts[i]? = some c ∧ c.is_valid = true ∧ c.scope = scope ∧
      c.kind = kind ∧ c.embedding = some e ∧
      supersessionThreshold < cosineSimilarity sq ne e ∧
      (∀ (j : Nat) (g : Fact) (e' : List ℚ), facts[j]? = some g →
        g.is_valid = true → g.scope = scope → g.kind = kind →
        g.embedding = some e' →
        cosineSimilarity sq ne e' ≤ cosineSimilarity sq ne e) ∧
      (addFact sq facts orgId projectId newId now (some ne) subject body kind
        scope confidence sourceFile sourcePrompt tags dependsOn).1[i]? =
        some { c with is_valid := false, superseded_by := some newId } ∧
      (addFact sq facts orgId projectId newId now (some ne) subject body kind
        scope confidence sourceFile sourcePrompt tags
        dependsOn).2.supersedes = some c.id ∧
      (addFact sq facts orgId projectId newId now (some ne) subject body kind
        scope confidence sourceFile sourcePrompt tags
        dependsOn).2.metadata.confidence =
        min 1 (c.metadata.confidence + 1 / 20) ∧
      (addFact sq facts orgId projectId newId now (some ne) subject body kind
        scope confidence sourceFile sourcePrompt tags dependsOn).2.id =
        newId := by
  have hemb : (mkNewFact orgId projectId newId now (some ne) subject body
      kind scope confidence sourceFile sourcePrompt tags
      dependsOn).embedding = some ne := rfl
  obtain ⟨i, hfind⟩ := findSupersessionCandidate_exists hemb hex
  obtain ⟨c, e, hc, hv, hs, hk, hce, hgt, hmax⟩ :=
    findSupersessionCandidate_some_spec hemb hfind
  have hilt : i < facts.length := (List.getElem?_eq_some.mp hc).1
  have heq := addFact_some_eq sq facts orgId projectId newId now (some ne)
    subject body kind scope confidence sourceFile sourcePrompt tags dependsOn
    i c hfind hc
  refine ⟨i, c, e, hc, hv, hs, hk, hce, hgt, ?_, ?_, ?_, ?_, ?_⟩
  · intro j g e' hg hgv hgs hgk hge
    exact hmax j (List.getElem?_eq_some.mp hg).1 g e' hg hgv hgs hgk hge
  · rw [heq]
    have hlen : i < (cascadeNeedsReview c.id
        (facts.set i (supersedeOld newId c))).length := by
      rw [cascadeNeedsReview_length, List.length_set]
      exact hilt
    rw [append_getElem?_lt hlen,
      addFact_some_at_cand facts newId c.id i c hilt]
    rfl
  · rw [heq]
    rfl
  · rw [heq]
    rfl
  · rw [heq]
    rfl

/-- Witness instantiation data: a stored valid PATTERN/PROJECT fact with an
embedding. -/
def factA : Fact :=
  { id := "a1"
    subject := "s"
    body := "b"
    kind := FactKind.pattern
    scope := FactScope.project
    org_id := ""
    project_id := ""
    is_valid := true
    superseded_by := none
    supersedes := none
    depends_on := []
    needs_review := false
    metadata :=
      { created_at := 0
        last_accessed := 0
        access_count := 0
        source_file := ""
        source_prompt := ""
        confidence := 1 / 2 }
    embedding := some [1]
    tags := [] }

/-- Witness instantiation data: a fact depending on `factA`. -/
def factD : Fact :=
  { factA with id := "d1", depends_on := ["a1"], embedding := none }

/-- Witness instantiation data: a valid DECISION fact (different kind). -/
def factB : Fact :=
  { factA with id := "c1", kind := FactKind.decision }

theorem addFact_supersedes_best_witness :
    (∃ (j : Nat) (g : Fact) (e : List ℚ), [factA][j]? = some g ∧
      g.is_valid = true ∧ g.scope = FactScope.project ∧
      g.kind = FactKind.pattern ∧ g.embedding = some e ∧
      supersessionThreshold < cosineSimilarity id [1] e) ∧
    (∃ (i : Nat) (c : Fact) (e : List ℚ),
      [factA][i]? = some c ∧ c.is_valid = true ∧
      c.scope = FactScope.project ∧ c.kind = FactKind.pattern ∧
      c.embedding = some e ∧
      supersessionThreshold < cosineSimilarity id [1] e ∧
      (∀ (j : Nat) (g : Fact) (e' : List ℚ), [factA][j]? = some g →
        g.is_valid = true → g.scope = FactScope.project →
        g.kind = FactKind.pattern → g.embedding = some e' →
        cosineSimilarity id [1] e' ≤ cosineSimilarity id [1] e) ∧
      (addFact id [factA] "o" "p" "b1" 0 (some [1]) "s2" "b2"
        FactKind.pattern FactScope.project (1 / 2) "" "" [] []).1[i]? =
        some { c with is_valid := false, superseded_by := some "b1" } ∧
      (addFact id [factA] "o" "p" "b1" 0 (some [1]) "s2" "b2"
        FactKind.pattern FactScope.project (1 / 2) "" "" [] []).2.supersedes =
        some c.id ∧
      (addFact id [factA] "o" "p" "b1" 0 (some [1]) "s2" "b2"
        FactKind.pattern FactScope.project (1 / 2) "" ""
        [] []).2.metadata.confidence =
        min 1 (c.metadata.confidence + 1 / 20) ∧
      (addFact id [factA] "o" "p" "b1" 0 (some [1]) "s2" "b2"
        FactKind.pattern FactScope.project (1 / 2) "" "" [] []).2.id =
        "b1") := by
  have hex : ∃ (j : Nat) (g : Fact) (e : List ℚ), [factA][j]? = some g ∧
      g.is_valid = true ∧ g.scope = FactScope.project ∧
      g.kind = FactKind.pattern ∧ g.embedding = some e ∧
      supersessionThreshold < cosineSimilarity id [1] e :=
    ⟨0, factA, [1], rfl, rfl, rfl, rfl, rfl, by
      norm_num [supersessionThreshold, cosineSimilarity, dotList]⟩
  exact ⟨hex, addFact_supersedes_best id [factA] "o" "p" "b1" 0 [1] "s2" "b2"
    FactKind.pattern FactScope.project (1 / 2) "" "" [] [] hex⟩

end Neo

namespace Neo

lemma markDependent_fields (cid : String) (f : Fact) :
    (if cid ∈ f.depends_on ∧ f.is_valid = true then
        { f with needs_review := true } else f).is_valid = f.is_valid ∧
    (if cid ∈ f.depends_on ∧ f.is_valid = true then
        { f with needs_review := true } else f).superseded_by =
      f.superseded_by ∧
    (if cid ∈ f.depends_on ∧ f.is_valid = true then
        { f with needs_review := true } else f).supersedes = f.supersedes ∧
    ((if cid ∈ f.depends_on ∧ f.is_valid = true then
        { f with needs_review := true } else f) = f ∨
      (if cid ∈ f.depends_on ∧ f.is_valid = true then
        { f with needs_review := true } else f) =
        { f with needs_review := true }) := by
  by_cases h : cid ∈ f.depends_on ∧ f.is_valid = true
  · rw [if_pos h]
    exact ⟨rfl, rfl, rfl, Or.inr rfl⟩
  · rw [if_neg h]
    exact ⟨rfl, rfl, rfl, Or.inl rfl⟩

/-- C2 (amended): `add_fact` stores the confidence argument unmodified when no
supersession candidate is found, and stores min(1.0, candidate confidence +
0.05) when one is.  No clamping of an out-of-range argument to the interval
0.0 to 1.0 takes place. -/
theorem addFact_confidence_spec (sq : ℚ → ℚ) (facts : List Fact)
    (orgId projectId newId : String) (now : ℚ) (emb : Option (List ℚ))
    (subject body : String) (kind : FactKind) (scope : FactScope)
    (confidence : ℚ) (sourceFile sourcePrompt : String)
    (tags dependsOn : List String) :
    (findSupersessionCandidate sq facts (mkNewFact orgId projectId newId now
        emb subject body kind scope confidence sourceFile sourcePrompt tags
        dependsOn) = none →
      (addFact sq facts orgId projectId newId now emb subject body kind scope
        confidence sourceFile sourcePrompt tags
        dependsOn).2.metadata.confidence = confidence) ∧
    (∀ (i : Nat) (c : Fact),
      findSupersessionCandidate sq facts (mkNewFact orgId projectId newId now
        emb subject body kind scope confidence sourceFile sourcePrompt tags
        dependsOn) = some i →
      facts[i]? = some c →
      (addFact sq facts orgId projectId newId now emb subject body kind scope
        confidence sourceFile sourcePrompt tags
        dependsOn).2.metadata.confidence =
        min 1 (c.metadata.confidence + 1 / 20)) := by
  constructor
  · intro hfind
    rw [addFact_none_eq sq facts orgId projectId newId now emb subject body
      kind scope confidence sourceFile sourcePrompt tags dependsOn hfind]
    rfl
  · intro i c hfind hc
    rw [addFact_some_eq sq facts orgId projectId newId now emb subject body
      kind scope confidence sourceFile sourcePrompt tags dependsOn i c hfind
      hc]
    rfl

/-- C2 counterexample: calling `add_fact` with confidence 1.5 on an empty
store produces a fact whose stored confidence is 1.5, outside the interval
0.0 to 1.0 — the claimed clamp does not exist in the code. -/
theorem addFact_confidence_clamp_cex :
    (addFact id [] "o" "p" "f1" 0 none "s" "b" FactKind.pattern
        FactScope.project (3 / 2) "" "" [] []).2.metadata.confidence =
      3 / 2 ∧
    ¬ ((addFact id [] "o" "p" "f1" 0 none "s" "b" FactKind.pattern
        FactScope.project (3 / 2) "" "" [] []).2.metadata.confidence ≤ 1) := by
  have h : (addFact id [] "o" "p" "f1" 0 none "s" "b" FactKind.pattern
      FactScope.project (3 / 2) "" "" [] []).2.metadata.confidence = 3 / 2 :=
    rfl
  refine ⟨h, ?_⟩
  rw [h]
  norm_num

theorem addFact_confidence_spec_witness :
    (findSupersessionCandidate id [] (mkNewFact "o" "p" "f1" 0 none "s" "b"
      FactKind.pattern FactScope.project (3 / 2) "" "" [] []) = none) ∧
    (addFact id [] "o" "p" "f1" 0 none "s" "b" FactKind.pattern
      FactScope.project (3 / 2) "" "" [] []).2.metadata.confidence = 3 / 2 :=
  ⟨rfl, (addFact_confidence_spec id [] "o" "p" "f1" 0 none "s" "b"
    FactKind.pattern FactScope.project (3 / 2) "" "" [] []).1 rfl⟩

/-- C3: a valid fact whose scope or kind differs from the new fact's is never
superseded or invalidated by `add_fact`, regardless of embedding similarity:
it stays valid, its supersession links are untouched (only its `needs_review`
flag may change, when it depends on a same-partition candidate), the new fact
stays valid, and any candidate that is chosen has the new fact's scope and
kind. -/
theorem addFact_no_cross_partition (sq : ℚ → ℚ) (facts : List Fact)
    (orgId projectId newId : String) (now : ℚ) (emb : Option (List ℚ))
    (subject body : String) (kind : FactKind) (scope : FactScope)
    (confidence : ℚ) (sourceFile sourcePrompt : String)
    (tags dependsOn : List String) (i : Nat) (f : Fact)
    (hf : facts[i]? = some f) (hv : f.is_valid = true)
    (hdiff : f.scope ≠ scope ∨ f.kind ≠ kind) :
    ∃ f',
      (addFact sq facts orgId projectId newId now emb subject body kind scope
        confidence sourceFile sourcePrompt tags dependsOn).1[i]? = some f' ∧
      f'.is_valid = true ∧
      f'.superseded_by = f.superseded_by ∧
      f'.supersedes = f.supersedes ∧
      (f' = f ∨ f' = { f with needs_review := true }) ∧
      (addFact sq facts orgId projectId newId now emb subject body kind scope
        confidence sourceFile sourcePrompt tags dependsOn).2.is_valid =
        true ∧
      (∀ (j : Nat) (c : Fact),
        findSupersessionCandidate sq facts (mkNewFact orgId projectId newId
          now emb subject body kind scope confidence sourceFile sourcePrompt
          tags dependsOn) = some j →
        facts[j]? = some c → c.scope = scope ∧ c.kind = kind) := by
  have hilt : i < facts.length := (List.getElem?_eq_some.mp hf).1
  cases hfind : findSupersessionCandidate sq facts (mkNewFact orgId projectId
      newId now emb subject body kind scope confidence sourceFile
      sourcePrompt tags dependsOn) with
  | none =>
    have heq := addFact_none_eq sq facts orgId projectId newId now emb
      subject body kind scope confidence sourceFile sourcePrompt tags
      dependsOn hfind
    refine ⟨f, ?_, hv, rfl, rfl, Or.inl rfl, ?_, ?_⟩
    · rw [heq, append_getElem?_lt hilt]
      exact hf
    · rw [heq]
      rfl
    · intro j c hj _
      exact Option.noConfusion hj
  | some j =>
    obtain ⟨ne, hemb⟩ := findSupersessionCandidate_emb_some hfind
    obtain ⟨c, e, hc, hcv, hcs, hck, hce, _, _⟩ :=
      findSupersessionCandidate_some_spec hemb hfind
    have hcs' : c.scope = scope := hcs
    have hck' : c.kind = kind := hck
    have hji : j ≠ i := by
      intro h
      subst h
      rw [hf] at hc
      have hcf : c = f := (Option.some.inj hc).symm
      rcases hdiff with hd | hd
      · exact hd (hcf ▸ hcs')
      · exact hd (hcf ▸ hck')
    have heq := addFact_some_eq sq facts orgId projectId newId now emb
      subject body kind scope confidence sourceFile sourcePrompt tags
      dependsOn j c hfind hc
    obtain ⟨hm1, hm2, hm3, hm4⟩ := markDependent_fields c.id f
    refine ⟨if c.id ∈ f.depends_on ∧ f.is_valid = true then
      { f with needs_review := true } else f, ?_, ?_, hm2, hm3, hm4, ?_, ?_⟩
    · rw [heq]
      have hlen : i < (cascadeNeedsReview c.id
          (facts.set j (supersedeOld newId c))).length := by
        rw [cascadeNeedsReview_length, List.length_set]
        exact hilt
      rw [append_getElem?_lt hlen,
        addFact_some_at_other facts newId c.id j i c f hf hji]
    · rw [hm1]
      exact hv
    · rw [heq]
      rfl
    · intro j' c' hj' hc'
      have hjj : j = j' := Option.some.inj hj'
      subst hjj
      rw [hc] at hc'
      have hcc : c = c' := Option.some.inj hc'
      subst hcc
      exact ⟨hcs', hck'⟩

theorem addFact_no_cross_partition_witness :
    ([factB][0]? = some factB) ∧ (factB.is_valid = true) ∧
    (factB.scope ≠ FactScope.project ∨ factB.kind ≠ FactKind.pattern) ∧
    (∃ f',
      (addFact id [factB] "o" "p" "b1" 0 (some [1]) "s2" "b2"
        FactKind.pattern FactScope.project (1 / 2) "" "" [] []).1[0]? =
        some f' ∧
      f'.is_valid = true ∧
      f'.superseded_by = factB.superseded_by ∧
      f'.supersedes = factB.supersedes ∧
      (f' = factB ∨ f' = { factB with needs_review := true }) ∧
      (addFact id [factB] "o" "p" "b1" 0 (some [1]) "s2" "b2"
        FactKind.pattern FactScope.project (1 / 2) "" "" [] []).2.is_valid =
        true ∧
      (∀ (j : Nat) (c : Fact),
        findSupersessionCandidate id [factB] (mkNewFact "o" "p" "b1" 0
          (some [1]) "s2" "b2" FactKind.pattern FactScope.project (1 / 2) ""
          "" [] []) = some j →
        [factB][j]? = some c →
        c.scope = FactScope.project ∧ c.kind = FactKind.pattern)) := by
  have hdiff : factB.scope ≠ FactScope.project ∨
      factB.kind ≠ FactKind.pattern := Or.inr (by decide)
  exact ⟨rfl, rfl, hdiff, addFact_no_cross_partition id [factB] "o" "p" "b1"
    0 (some [1]) "s2" "b2" FactKind.pattern FactScope.project (1 / 2) "" ""
    [] [] 0 factB rfl rfl hdiff⟩

/-- C4: when the candidate at index `i` is superseded during `add_fact`,
every other pre-existing fact is updated by exactly the one-hop cascade rule:
a still-valid fact whose `depends_on` contains the superseded fact's id gets
`needs_review := true`, and every other fact — in particular any fact whose
`depends_on` does not contain that id, even one depending on a freshly
flagged dependent — is returned completely unchanged. -/
theorem addFact_cascade_one_hop (sq : ℚ → ℚ) (facts : List Fact)
    (orgId projectId newId : String) (now : ℚ) (emb : Option (List ℚ))
    (subject body : String) (kind : FactKind) (scope : FactScope)
    (confidence : ℚ) (sourceFile sourcePrompt : String)
    (tags dependsOn : List String) (i : Nat) (P : Fact)
    (hfind : findSupersessionCandidate sq facts (mkNewFact orgId projectId
      newId now emb subject body kind scope confidence sourceFile
      sourcePrompt tags dependsOn) = some i)
    (hP : facts[i]? = some P) :
    ∀ (j : Nat) (f : Fact), facts[j]? = some f → j ≠ i →
      (addFact sq facts orgId projectId newId now emb subject body kind scope
        confidence sourceFile sourcePrompt tags dependsOn).1[j]? =
        some (if P.id ∈ f.depends_on ∧ f.is_valid = true then
          { f with needs_review := true } else f) := by
  intro j f hj hji
  have hjlt : j < facts.length := (List.getElem?_eq_some.mp hj).1
  have heq := addFact_some_eq sq facts orgId projectId newId now emb subject
    body kind scope confidence sourceFile sourcePrompt tags dependsOn i P
    hfind hP
  rw [heq]
  have hlen : j < (cascadeNeedsReview P.id
      (facts.set i (supersedeOld newId P))).length := by
    rw [cascadeNeedsReview_length, List.length_set]
    exact hjlt
  rw [append_getElem?_lt hlen,
    addFact_some_at_other facts newId P.id i j P f hj (fun h => hji h.symm)]

theorem addFact_cascade_one_hop_witness :
    (findSupersessionCandidate id [factA, factD] (mkNewFact "o" "p" "b1" 0
      (some [1]) "s2" "b2" FactKind.pattern FactScope.project (1 / 2) "" ""
      [] []) = some 0) ∧
    ([factA, factD][0]? = some factA) ∧
    (∀ (j : Nat) (f : Fact), [factA, factD][j]? = some f → j ≠ 0 →
      (addFact id [factA, factD] "o" "p" "b1" 0 (some [1]) "s2" "b2"
        FactKind.pattern FactScope.project (1 / 2) "" "" [] []).1[j]? =
        some (if factA.id ∈ f.depends_on ∧ f.is_valid = true then
          { f with needs_review := true } else f)) := by
  have hsim : cosineSimilarity id [1] [1] = 1 := by
    norm_num [cosineSimilarity, dotList]
  have hfind : findSupersessionCandidate id [factA, factD] (mkNewFact "o"
      "p" "b1" 0 (some [1]) "s2" "b2" FactKind.pattern FactScope.project
      (1 / 2) "" "" [] []) = some 0 := by
    norm_num [findSupersessionCandidate, findCandAux, candStep, mkNewFact,
      factA, factD, hsim, supersessionThreshold]
  exact ⟨hfind, rfl, addFact_cascade_one_hop id [factA, factD] "o" "p" "b1"
    0 (some [1]) "s2" "b2" FactKind.pattern FactScope.project (1 / 2) "" ""
    [] [] 0 factA hfind rfl⟩

end Neo

namespace Neo

/-- Relevance score from `FactStore.retrieve_relevant`
(`src/neo/memory/store.py` lines 183-192); the identical formula appears in
`ContextAssembler._score_facts` (`src/neo/memory/context.py` lines 104-118).
The similarity defaults to 0.5 when either the query embedding or the fact
embedding is absent; `0.5 ** x` is the parameter `halfPow`. -/
def scoreFact (sq halfPow : ℚ → ℚ) (now : ℚ) (qe : Option (List ℚ))
    (f : Fact) : ℚ :=
  let sim : ℚ :=
    match qe, f.embedding with
    | some q, some e => cosineSimilarity sq q e
    | _, _ => 1 / 2
  let ageDays := (now - f.metadata.last_accessed) / 86400
  let recency := halfPow (ageDays / 30)
  sim * f.metadata.confidence * (1 / 2 + 1 / 2 * recency)

/-- Access-metadata update applied to each returned fact by
`retrieve_relevant` (`src/neo/memory/store.py` lines 199-201). -/
def touchFact (now : ℚ) (f : Fact) : Fact :=
  { f with metadata := { f.metadata with
      last_accessed := now
      access_count := f.metadata.access_count + 1 } }

/-- FactStore.retrieve_relevant (`src/neo/memory/store.py` lines 163-204):
filter to valid non-CONSTRAINT facts, score, sort descending by score
(Python's stable sort with reverse=True, modelled by a stable merge sort on
the flipped comparison), take the top k and update their access metadata.
The Python function also mutates those facts inside the store; the returned
list carries the updated copies. -/
def retrieveRelevant (sq halfPow : ℚ → ℚ) (now : ℚ) (facts : List Fact)
    (qe : Option (List ℚ)) (k : Nat) : List Fact :=
  let validFacts :=
    facts.filter fun f => f.is_valid && decide (f.kind ≠ FactKind.constraint)
  if validFacts.isEmpty then []
  else
    let scored := validFacts.map fun f => (f, scoreFact sq halfPow now qe f)
    let sorted := scored.mergeSort fun a b => decide (b.2 ≤ a.2)
    (sorted.take k).map fun q => touchFact now q.1

/-- Generic description of the sort-descending-and-take-k pattern used by
`retrieve_relevant` and by `ContextAssembler.assemble`: the kept prefix is a
sub-permutation of the input, has length min k n, is sorted descending by the
key, and its members dominate everything dropped. -/
lemma sort_take_key_spec {α : Type} (key : α → ℚ) (l : List α) (k : Nat) :
    ∃ rest,
      ((l.mergeSort fun a b => decide (key b ≤ key a)).take k ++ rest).Perm
        l ∧
      ((l.mergeSort fun a b => decide (key b ≤ key a)).take k).length =
        min k l.length ∧
      List.Sorted (fun a b => key b ≤ key a)
        ((l.mergeSort fun a b => decide (key b ≤ key a)).take k) ∧
      ∀ a ∈ (l.mergeSort fun a b => decide (key b ≤ key a)).take k,
        ∀ b ∈ rest, key b ≤ key a := by
  have htrans : ∀ a b c : α, (fun a b => decide (key b ≤ key a)) a b = true →
      (fun a b => decide (key b ≤ key a)) b c = true →
      (fun a b => decide (key b ≤ key a)) a c = true := by
    intro a b c hab hbc
    simp only [decide_eq_true_eq] at hab hbc ⊢
    exact le_trans hbc hab
  have htot : ∀ a b : α, ((fun a b => decide (key b ≤ key a)) a b ||
      (fun a b => decide (key b ≤ key a)) b a) = true := by
    intro a b
    simp only [Bool.or_eq_true, decide_eq_true_eq]
    exact le_total (key b) (key a)
  have hperm := List.mergeSort_perm l (fun a b => decide (key b ≤ key a))
  have hsorted := List.sorted_mergeSort htrans htot l
  refine ⟨(l.mergeSort fun a b => decide (key b ≤ key a)).drop k, ?_, ?_, ?_,
    ?_⟩
  · rw [List.take_append_drop]
    exact hperm
  · rw [List.length_take, hperm.length_eq]
  · have hsub := List.Pairwise.sublist
      (List.take_sublist k (l.mergeSort fun a b => decide (key b ≤ key a)))
      hsorted
    exact hsub.imp (by
      intro a b h
      simpa only [decide_eq_true_eq] using h)
  · intro a ha b hb
    have hps : List.Pairwise
        (fun a b => (fun a b => decide (key b ≤ key a)) a b = true)
        ((l.mergeSort fun a b => decide (key b ≤ key a)).take k ++
          (l.mergeSort fun a b => decide (key b ≤ key a)).drop k) := by
      rw [List.take_append_drop]
      exact hsorted
    have := (List.pairwise_append.mp hps).2.2 a ha b hb
    simpa only [decide_eq_true_eq] using this

end Neo

namespace Neo

/-- C5: `retrieve_relevant` draws candidates only from valid non-CONSTRAINT
facts (returning the empty list when only CONSTRAINT facts are valid), scores
each candidate as similarity times confidence times (0.5 + 0.5 times
recency), where similarity defaults to 0.5 whenever either embedding is
absent and recency is 0.5 to the power age_days / 30, and returns the top k
candidates in descending score order (each with its access metadata
updated). -/
theorem retrieveRelevant_spec (sq halfPow : ℚ → ℚ) (now : ℚ)
    (facts : List Fact) (qe : Option (List ℚ)) (k : Nat) :
    ((∀ f ∈ facts, f.is_valid = true → f.kind = FactKind.constraint) →
      retrieveRelevant sq halfPow now facts qe k = []) ∧
    (∀ f, scoreFact sq halfPow now qe f =
      (match qe, f.embedding with
        | some q, some e => cosineSimilarity sq q e
        | _, _ => 1 / 2) * f.metadata.confidence *
        (1 / 2 + 1 / 2 *
          halfPow ((now - f.metadata.last_accessed) / 86400 / 30))) ∧
    ∃ sel rest,
      (sel ++ rest).Perm (facts.filter fun f =>
        f.is_valid && decide (f.kind ≠ FactKind.constraint)) ∧
      retrieveRelevant sq halfPow now facts qe k =
        sel.map (touchFact now) ∧
      sel.length = min k (facts.filter fun f =>
        f.is_valid && decide (f.kind ≠ FactKind.constraint)).length ∧
      List.Sorted (fun a b => scoreFact sq halfPow now qe b ≤
        scoreFact sq halfPow now qe a) sel ∧
      (∀ a ∈ sel, ∀ b ∈ rest, scoreFact sq halfPow now qe b ≤
        scoreFact sq halfPow now qe a) := by
  refine ⟨?_, fun f => rfl, ?_⟩
  · intro hcon
    have hpool : (facts.filter fun f =>
        f.is_valid && decide (f.kind ≠ FactKind.constraint)) = [] := by
      rw [List.filter_eq_nil_iff]
      intro a ha hpa
      simp only [Bool.and_eq_true, decide_eq_true_eq] at hpa
      exact hpa.2 (hcon a ha hpa.1)
    unfold retrieveRelevant
    rw [hpool]
    rfl
  · by_cases hpool : (facts.filter fun f =>
        f.is_valid && decide (f.kind ≠ FactKind.constraint)) = []
    · refine ⟨[], [], ?_, ?_, ?_, List.sorted_nil, ?_⟩
      · rw [hpool]
        exact List.Perm.nil
      · unfold retrieveRelevant
        rw [hpool]
        rfl
      · rw [hpool]
        simp
      · intro a ha
        exact absurd ha (List.not_mem_nil a)
    · obtain ⟨rest, hperm, hlen, hsort, hdom⟩ :=
        sort_take_key_spec Prod.snd
          ((facts.filter fun f =>
            f.is_valid && decide (f.kind ≠ FactKind.constraint)).map
            fun f => (f, scoreFact sq halfPow now qe f)) k
      have hwf : ∀ q ∈ ((facts.filter fun f =>
          f.is_valid && decide (f.kind ≠ FactKind.constraint)).map
          fun f => (f, scoreFact sq halfPow now qe f)),
          q.2 = scoreFact sq halfPow now qe q.1 := by
        intro q hq
        obtain ⟨f, _, hfq⟩ := List.mem_map.mp hq
        rw [← hfq]
      have hmemScored : ∀ q, q ∈ (((facts.filter fun f =>
          f.is_valid && decide (f.kind ≠ FactKind.constraint)).map
            fun f => (f, scoreFact sq halfPow now qe f)).mergeSort
            fun a b => decide (b.2 ≤ a.2)).take k ∨ q ∈ rest →
          q.2 = scoreFact sq halfPow now qe q.1 := by
        intro q hq
        refine hwf q (hperm.mem_iff.mp ?_)
        rcases hq with hq | hq
        · exact List.mem_append_left _ hq
        · exact List.mem_append_right _ hq
      refine ⟨((((facts.filter fun f =>
          f.is_valid && decide (f.kind ≠ FactKind.constraint)).map
            fun f => (f, scoreFact sq halfPow now qe f)).mergeSort
            fun a b => decide (b.2 ≤ a.2)).take k).map Prod.fst,
          rest.map Prod.fst, ?_, ?_, ?_, ?_, ?_⟩
      · rw [← List.map_append]
        have h2 := hperm.map Prod.fst
        have h3 : (((facts.filter fun f =>
            f.is_valid && decide (f.kind ≠ FactKind.constraint)).map
            fun f => (f, scoreFact sq halfPow now qe f)).map Prod.fst) =
            (facts.filter fun f =>
              f.is_valid && decide (f.kind ≠ FactKind.constraint)) := by
          rw [List.map_map]
          exact List.map_id _
        rw [h3] at h2
        exact h2
      · unfold retrieveRelevant
        rw [if_neg (by
          simp only [List.isEmpty_iff]
          exact hpool)]
        rw [List.map_map]
        rfl
      · rw [List.length_map, hlen, List.length_map]
      · rw [List.Sorted, List.pairwise_map]
        refine List.Pairwise.imp_of_mem ?_ hsort
        intro a b ha hb hab
        rw [hmemScored a (Or.inl ha), hmemScored b (Or.inl hb)] at hab
        exact hab
      · intro a ha b hb
        obtain ⟨q, hq, hqa⟩ := List.mem_map.mp ha
        obtain ⟨r, hr, hrb⟩ := List.mem_map.mp hb
        have hle := hdom q hq r hr
        rw [hmemScored q (Or.inl hq), hmemScored r (Or.inr hr)] at hle
        rw [← hqa, ← hrb]
        exact hle

end Neo

namespace Neo

theorem retrieveRelevant_spec_witness :
    retrieveRelevant id id 0 [{ factA with kind := FactKind.constraint }]
      none 5 = [] :=
  (retrieveRelevant_spec id id 0
    [{ factA with kind := FactKind.constraint }] none 5).1 (by
      intro f hf _
      rw [List.mem_singleton] at hf
      rw [hf])

/-- MAX_INVALIDATED_FACTS = 3 (`src/neo/memory/context.py` line 19). -/
def maxInvalidatedFacts : Nat := 3

/-- The scope_order map of `ContextAssembler.assemble`
(`src/neo/memory/context.py` line 72); the fallback value 99 of
`scope_order.get` is unreachable because all four scopes are keyed. -/
def scopeOrderKey (s : FactScope) : Nat :=
  match s with
  | FactScope.globalScope => 0
  | FactScope.org => 1
  | FactScope.project => 2
  | FactScope.session => 3

/-- ContextResult from `src/neo/memory/models.py` (class ContextResult).
The opaque environment dict is modelled as an association list. -/
structure ContextResult where
  constraints : List Fact
  valid_facts : List Fact
  invalidated_facts : List Fact
  working_set : List Fact
  environment : List (String × String)
  known_unknowns : List Fact
deriving DecidableEq, Repr

/-- ContextAssembler.assemble (`src/neo/memory/context.py` lines 33-90).
The per-fact if/elif partition loop (lines 59-69) is encoded as one filter
per layer whose predicate is that branch's condition conjoined with the
negations of the earlier branches; for the known-unknowns layer the negation
of the constraint branch is omitted because the two kind values are distinct
constructors, and for the invalidated layer the first four branch negations
reduce to invalidity because each of those branches requires a valid fact.
Constraints are sorted ascending by scope order and the invalidated pool
descending by last_accessed, both with Python's stable sort; the valid pool
is scored and ranked exactly as in `retrieve_relevant`. -/
def assemble (sq halfPow : ℚ → ℚ) (now : ℚ) (facts : List Fact)
    (queryEmb : Option (List ℚ)) (env : Option (List (String × String)))
    (k : Nat) : ContextResult :=
  let constraints := facts.filter fun f =>
    decide (f.kind = FactKind.constraint) && f.is_valid
  let knownUnknowns := facts.filter fun f =>
    decide (f.kind = FactKind.known_unknown) && f.is_valid
  let sessionFacts := facts.filter fun f =>
    decide (f.kind ≠ FactKind.constraint) &&
    decide (f.kind ≠ FactKind.known_unknown) &&
    decide (f.scope = FactScope.session) && f.is_valid
  let validCandidates := facts.filter fun f =>
    decide (f.kind ≠ FactKind.constraint) &&
    decide (f.kind ≠ FactKind.known_unknown) &&
    decide (f.scope ≠ FactScope.session) && f.is_valid
  let invalidated := facts.filter fun f =>
    !f.is_valid && decide (f.superseded_by ≠ none)
  let constraintsSorted := constraints.mergeSort fun a b =>
    decide (scopeOrderKey a.scope ≤ scopeOrderKey b.scope)
  let scoredValid := (validCandidates.map fun f =>
    (f, scoreFact sq halfPow now queryEmb f)).mergeSort fun a b =>
      decide (b.2 ≤ a.2)
  let topValid := (scoredValid.take k).map fun q => q.1
  let invalidatedSorted := invalidated.mergeSort fun a b =>
    decide (b.metadata.last_accessed ≤ a.metadata.last_accessed)
  { constraints := constraintsSorted
    valid_facts := topValid
    invalidated_facts := invalidatedSorted.take maxInvalidatedFacts
    working_set := sessionFacts
    environment := env.getD []
    known_unknowns := knownUnknowns }

/-- C6: the invalidated layer of `assemble` holds at most 3 facts: a
sub-permutation of the invalid-with-successor pool of size min 3 (pool size),
sorted by last_accessed descending, and every returned fact's last_accessed
is at least that of every pool fact left out. -/
theorem assemble_invalidated_cap (sq halfPow : ℚ → ℚ) (now : ℚ)
    (facts : List Fact) (qe : Option (List ℚ))
    (env : Option (List (String × String))) (k : Nat) :
    ∃ rest,
      ((assemble sq halfPow now facts qe env k).invalidated_facts ++
        rest).Perm (facts.filter fun f =>
          !f.is_valid && decide (f.superseded_by ≠ none)) ∧
      (assemble sq halfPow now facts qe env k).invalidated_facts.length =
        min 3 (facts.filter fun f =>
          !f.is_valid && decide (f.superseded_by ≠ none)).length ∧
      List.Sorted (fun a b =>
        b.metadata.last_accessed ≤ a.metadata.last_accessed)
        (assemble sq halfPow now facts qe env k).invalidated_facts ∧
      ∀ a ∈ (assemble sq halfPow now facts qe env k).invalidated_facts,
        ∀ b ∈ rest, b.metadata.last_accessed ≤ a.metadata.last_accessed := by
  obtain ⟨rest, h1, h2, h3, h4⟩ := sort_take_key_spec
    (fun f : Fact => f.metadata.last_accessed)
    (facts.filter fun f => !f.is_valid && decide (f.superseded_by ≠ none)) 3
  exact ⟨rest, h1, h2, h3, h4⟩

end Neo

namespace Neo

/-- Witness instantiation data: an invalidated fact with a successor link and
a given last_accessed timestamp. -/
def invFact (n : String) (t : ℚ) : Fact :=
  { factA with
    id := n
    is_valid := false
    superseded_by := some "x"
    metadata := { factA.metadata with last_accessed := t } }

theorem assemble_invalidated_cap_witness :
    ∃ rest,
      (((assemble id id 0 [invFact "i1" 1, invFact "i2" 2, invFact "i3" 3,
        invFact "i4" 4] none none 5).invalidated_facts ++ rest).Perm
        ([invFact "i1" 1, invFact "i2" 2, invFact "i3" 3,
          invFact "i4" 4].filter fun f =>
            !f.is_valid && decide (f.superseded_by ≠ none))) ∧
      (assemble id id 0 [invFact "i1" 1, invFact "i2" 2, invFact "i3" 3,
        invFact "i4" 4] none none 5).invalidated_facts.length =
        min 3 ([invFact "i1" 1, invFact "i2" 2, invFact "i3" 3,
          invFact "i4" 4].filter fun f =>
            !f.is_valid && decide (f.superseded_by ≠ none)).length ∧
      List.Sorted (fun a b =>
        b.metadata.last_accessed ≤ a.metadata.last_accessed)
        (assemble id id 0 [invFact "i1" 1, invFact "i2" 2, invFact "i3" 3,
          invFact "i4" 4] none none 5).invalidated_facts ∧
      ∀ a ∈ (assemble id id 0 [invFact "i1" 1, invFact "i2" 2,
        invFact "i3" 3, invFact "i4" 4] none none 5).invalidated_facts,
        ∀ b ∈ rest, b.metadata.last_accessed ≤ a.metadata.last_accessed :=
  assemble_invalidated_cap id id 0
    [invFact "i1" 1, invFact "i2" 2, invFact "i3" 3, invFact "i4" 4] none none 5

/-- The invalidation step of `ConstraintIngester.ingest`
(`src/neo/memory/constraints.py` lines 73-79): every valid CONSTRAINT fact
whose source_file equals the changed file's path is marked invalid — without
setting `superseded_by`. -/
def ingestInvalidate (filePath : String) (facts : List Fact) : List Fact :=
  facts.map fun f =>
    if f.kind = FactKind.constraint ∧ f.metadata.source_file = filePath ∧
        f.is_valid = true then
      { f with is_valid := false }
    else f

/-- C7: a fact that is invalid and has no `superseded_by` reference — such as
a CONSTRAINT fact invalidated by `ConstraintIngester.ingest`, which clears
`is_valid` without setting `superseded_by` — appears in none of the five fact
layers produced by `assemble`. -/
theorem assemble_drops_orphans (sq halfPow : ℚ → ℚ) (now : ℚ)
    (facts : List Fact) (qe : Option (List ℚ))
    (env : Option (List (String × String))) (k : Nat) (f : Fact)
    (hv : f.is_valid = false) (hsb : f.superseded_by = none) :
    f ∉ (assemble sq halfPow now facts qe env k).constraints ∧
    f ∉ (assemble sq halfPow now facts qe env k).valid_facts ∧
    f ∉ (assemble sq halfPow now facts qe env k).invalidated_facts ∧
    f ∉ (assemble sq halfPow now facts qe env k).working_set ∧
    f ∉ (assemble sq halfPow now facts qe env k).known_unknowns := by
  refine ⟨?_, ?_, ?_, ?_, ?_⟩
  · intro hmem
    have h1 : f ∈ (facts.filter fun g =>
        decide (g.kind = FactKind.constraint) && g.is_valid).mergeSort
        (fun a b => decide (scopeOrderKey a.scope ≤ scopeOrderKey b.scope)) :=
      hmem
    have h2 := (List.mergeSort_perm _ _).mem_iff.mp h1
    have h3 := (List.mem_filter.mp h2).2
    simp only [Bool.and_eq_true, decide_eq_true_eq] at h3
    rw [hv] at h3
    exact absurd h3.2 (by simp)
  · intro hmem
    have h1 : f ∈ ((((facts.filter fun g =>
        decide (g.kind ≠ FactKind.constraint) &&
        decide (g.kind ≠ FactKind.known_unknown) &&
        decide (g.scope ≠ FactScope.session) && g.is_valid).map fun g =>
          (g, scoreFact sq halfPow now qe g)).mergeSort fun a b =>
            decide (b.2 ≤ a.2)).take k).map fun q => q.1 := hmem
    obtain ⟨q, hq, hqf⟩ := List.mem_map.mp h1
    have hq2 := (List.take_sublist _ _).subset hq
    have hq3 := (List.mergeSort_perm _ _).mem_iff.mp hq2
    obtain ⟨g, hg, hgq⟩ := List.mem_map.mp hq3
    have hgf : g = f := by
      rw [← hqf, ← hgq]
    subst hgf
    have h3 := (List.mem_filter.mp hg).2
    simp only [Bool.and_eq_true, decide_eq_true_eq] at h3
    rw [hv] at h3
    exact absurd h3.2 (by simp)
  · intro hmem
    have h1 : f ∈ ((facts.filter fun g =>
        !g.is_valid && decide (g.superseded_by ≠ none)).mergeSort fun a b =>
          decide (b.metadata.last_accessed ≤
            a.metadata.last_accessed)).take maxInvalidatedFacts := hmem
    have h2 := (List.take_sublist _ _).subset h1
    have h3 := (List.mergeSort_perm _ _).mem_iff.mp h2
    have h4 := (List.mem_filter.mp h3).2
    simp only [Bool.and_eq_true, decide_eq_true_eq] at h4
    exact h4.2 hsb
  · intro hmem
    have h1 : f ∈ facts.filter fun g =>
        decide (g.kind ≠ FactKind.constraint) &&
        decide (g.kind ≠ FactKind.known_unknown) &&
        decide (g.scope = FactScope.session) && g.is_valid := hmem
    have h3 := (List.mem_filter.mp h1).2
    simp only [Bool.and_eq_true, decide_eq_true_eq] at h3
    rw [hv] at h3
    exact absurd h3.2 (by simp)
  · intro hmem
    have h1 : f ∈ facts.filter fun g =>
        decide (g.kind = FactKind.known_unknown) && g.is_valid := hmem
    have h3 := (List.mem_filter.mp h1).2
    simp only [Bool.and_eq_true, decide_eq_true_eq] at h3
    rw [hv] at h3
    exact absurd h3.2 (by simp)

/-- Witness instantiation data: a valid CONSTRAINT fact ingested from a
documentation file. -/
def factC : Fact :=
  { factA with
    id := "k1"
    kind := FactKind.constraint
    metadata := { factA.metadata with
      source_file := "CLAUDE.md"
      confidence := 1 } }

theorem assemble_drops_orphans_witness :
    (ingestInvalidate "CLAUDE.md" [factC] =
      [{ factC with is_valid := false }]) ∧
    ({ factC with is_valid := false }.is_valid = false) ∧
    ({ factC with is_valid := false }.superseded_by = none) ∧
    ({ factC with is_valid := false } ∉
      (assemble id id 0 (ingestInvalidate "CLAUDE.md" [factC]) none none
        5).constraints ∧
    { factC with is_valid := false } ∉
      (assemble id id 0 (ingestInvalidate "CLAUDE.md" [factC]) none none
        5).valid_facts ∧
    { factC with is_valid := false } ∉
      (assemble id id 0 (ingestInvalidate "CLAUDE.md" [factC]) none none
        5).invalidated_facts ∧
    { factC with is_valid := false } ∉
      (assemble id id 0 (ingestInvalidate "CLAUDE.md" [factC]) none none
        5).working_set ∧
    { factC with is_valid := false } ∉
      (assemble id id 0 (ingestInvalidate "CLAUDE.md" [factC]) none none
        5).known_unknowns) := by
  refine ⟨?_, rfl, rfl, assemble_drops_orphans id id 0
    (ingestInvalidate "CLAUDE.md" [factC]) none none 5
    { factC with is_valid := false } rfl rfl⟩
  rfl

end Neo

namespace Neo

/-- String value of each FactKind, as in the Python Enum
(`src/neo/memory/models.py` lines 17-25); `to_dict` stores `kind.value`. -/
def kindValue : FactKind → String
  | FactKind.constraint => "constraint"
  | FactKind.architecture => "architecture"
  | FactKind.pattern => "pattern"
  | FactKind.review => "review"
  | FactKind.decision => "decision"
  | FactKind.known_unknown => "known_unknown"
  | FactKind.failure => "failure"

/-- Inverse lookup performed by the `FactKind(...)` enum constructor in
`Fact.from_dict`; an unknown value raises ValueError, modelled by `none`. -/
def factKindOfValue (s : String) : Option FactKind :=
  if s = "constraint" then some FactKind.constraint
  else if s = "architecture" then some FactKind.architecture
  else if s = "pattern" then some FactKind.pattern
  else if s = "review" then some FactKind.review
  else if s = "decision" then some FactKind.decision
  else if s = "known_unknown" then some FactKind.known_unknown
  else if s = "failure" then some FactKind.failure
  else none

/-- String value of each FactScope (`src/neo/memory/models.py` lines 28-33). -/
def scopeValue : FactScope → String
  | FactScope.globalScope => "global"
  | FactScope.org => "org"
  | FactScope.project => "project"
  | FactScope.session => "session"

/-- Inverse lookup performed by the `FactScope(...)` enum constructor. -/
def factScopeOfValue (s : String) : Option FactScope :=
  if s = "global" then some FactScope.globalScope
  else if s = "org" then some FactScope.org
  else if s = "project" then some FactScope.project
  else if s = "session" then some FactScope.session
  else none

/-- The dictionary produced by `FactMetadata.to_dict`
(`src/neo/memory/models.py` lines 46-54); every key is always written. -/
structure MetadataDict where
  created_at : ℚ
  last_accessed : ℚ
  access_count : Nat
  source_file : String
  source_prompt : String
  confidence : ℚ
deriving DecidableEq, Repr

/-- FactMetadata.to_dict (`src/neo/memory/models.py` lines 46-54). -/
def FactMetadata.to_dict (m : FactMetadata) : MetadataDict :=
  { created_at := m.created_at
    last_accessed := m.last_accessed
    access_count := m.access_count
    source_file := m.source_file
    source_prompt := m.source_prompt
    confidence := m.confidence }

/-- FactMetadata.from_dict (`src/neo/memory/models.py` lines 56-65); the
`.get` defaults never fire on a dict written by `to_dict`, which emits every
key, so the dict model carries all fields. -/
def FactMetadata.from_dict (d : MetadataDict) : FactMetadata :=
  { created_at := d.created_at
    last_accessed := d.last_accessed
    access_count := d.access_count
    source_file := d.source_file
    source_prompt := d.source_prompt
    confidence := d.confidence }

/-- The dictionary produced by `Fact.to_dict` (`src/neo/memory/models.py`
lines 90-109).  The `embedding` field distinguishes an absent key (`none`)
from a JSON null (`some none`) from an array (`some (some v)`), because
`from_dict` (line 114) checks both key presence and non-nullness. -/
structure FactDict where
  id : String
  subject : String
  body : String
  kind : String
  scope : String
  org_id : String
  project_id : String
  is_valid : Bool
  superseded_by : Option String
  supersedes : Option String
  depends_on : List String
  needs_review : Bool
  metadata : MetadataDict
  tags : List String
  embedding : Option (Option (List ℚ))
deriving DecidableEq, Repr

/-- Fact.to_dict (`src/neo/memory/models.py` lines 90-109): writes every
plain field, and writes the `embedding` key only when the embedding is not
None (lines 107-108) — the key is omitted, never null. -/
def Fact.to_dict (f : Fact) : FactDict :=
  { id := f.id
    subject := f.subject
    body := f.body
    kind := kindValue f.kind
    scope := scopeValue f.scope
    org_id := f.org_id
    project_id := f.project_id
    is_valid := f.is_valid
    superseded_by := f.superseded_by
    supersedes := f.supersedes
    depends_on := f.depends_on
    needs_review := f.needs_review
    metadata := f.metadata.to_dict
    tags := f.tags
    embedding := f.embedding.map some }

/-- Fact.from_dict (`src/neo/memory/models.py` lines 111-133): the embedding
is read only when the key is present and not null; the enum constructors can
raise (ValueError), modelled by `Option`.  The float32 narrowing of the
embedding values is exact on values produced by `to_dict`. -/
def Fact.from_dict (d : FactDict) : Option Fact :=
  let embedding : Option (List ℚ) :=
    match d.embedding with
    | some (some v) => some v
    | _ => none
  match factKindOfValue d.kind, factScopeOfValue d.scope with
  | some kind, some scope =>
    some
      { id := d.id
        subject := d.subject
        body := d.body
        kind := kind
        scope := scope
        org_id := d.org_id
        project_id := d.project_id
        is_valid := d.is_valid
        superseded_by := d.superseded_by
        supersedes := d.supersedes
        depends_on := d.depends_on
        needs_review := d.needs_review
        metadata := FactMetadata.from_dict d.metadata
        embedding := embedding
        tags := d.tags }
  | _, _ => none

lemma factKindOfValue_kindValue (k : FactKind) :
    factKindOfValue (kindValue k) = some k := by
  cases k <;> rfl

lemma factScopeOfValue_scopeValue (s : FactScope) :
    factScopeOfValue (scopeValue s) = some s := by
  cases s <;> rfl

/-- C8: deserializing the serialized form of any Fact reproduces every field
exactly (embeddings exactly in the rational model, matching float32
round-trip tolerance), and the serialized form omits the embedding key
entirely — rather than writing null — when the embedding is absent. -/
theorem fact_to_dict_from_dict_roundtrip (f : Fact) :
    Fact.from_dict (Fact.to_dict f) = some f ∧
    (f.embedding = none → (Fact.to_dict f).embedding = none) := by
  constructor
  · obtain ⟨fid, fsub, fbody, fkind, fscope, forg, fproj, fvalid, fsb, fsup,
      fdep, fnr, fmd, femb, ftags⟩ := f
    cases femb <;>
      simp [Fact.from_dict, Fact.to_dict, factKindOfValue_kindValue,
        factScopeOfValue_scopeValue, FactMetadata.to_dict,
        FactMetadata.from_dict]
  · intro h
    unfold Fact.to_dict
    rw [h]
    rfl

theorem fact_roundtrip_witness :
    (Fact.from_dict (Fact.to_dict factD) = some factD) ∧
    (factD.embedding = none) ∧
    ((Fact.to_dict factD).embedding = none) :=
  ⟨(fact_to_dict_from_dict_roundtrip factD).1, rfl,
    (fact_to_dict_from_dict_roundtrip factD).2 rfl⟩

/-- FactStore._save_file (`src/neo/memory/store.py` lines 275-287).  The
filesystem write attempt (mkdir, open, json.dump) is modelled by its outcome
`writeOutcome`.  The `except Exception` clause catches any failure, logs it
and returns normally, so the caller of `save` — and hence of `add_fact` —
never observes the error.  The result is the outcome visible to the caller
paired with whether an error was logged. -/
def saveFile (writeOutcome : Except String Unit) :
    Except String Unit × Bool :=
  match writeOutcome with
  | Except.ok _ => (Except.ok (), false)
  | Except.error _ => (Except.ok (), true)

/-- FactStore._load_file (`src/neo/memory/store.py` lines 289-299).  The
read-and-parse attempt is modelled by its outcome; JSONDecodeError and
OSError are caught, logged, and turned into an empty list.  A per-fact
ValueError from `Fact.from_dict` inside the comprehension is not in the
except clause and does propagate. -/
def loadFile (readOutcome : Except String (List FactDict)) :
    Except String (List Fact) :=
  match readOutcome with
  | Except.error _ => Except.ok []
  | Except.ok ds =>
    match ds.mapM Fact.from_dict with
    | some fs => Except.ok fs
    | none => Except.error "ValueError"

/-- C9 counterexample: a failed persistence write during `_save_file` is NOT
surfaced to the caller — the call returns normally instead of propagating
the error. -/
theorem saveFile_propagates_cex :
    (saveFile (Except.error "disk full")).1 = Except.ok () ∧
    (saveFile (Except.error "disk full")).1 ≠
      Except.error "disk full" :=
  ⟨rfl, fun h => Except.noConfusion h⟩

/-- C9 (amended): a persistence write failure during save is caught and
logged, not propagated — `_save_file` returns normally for every outcome
(so `save` and `add_fact` never raise for it) and logs an error exactly when
the write failed; a read or parse failure of a single file during load never
raises and contributes an empty fact list for that file. -/
theorem persistence_error_handling (w : Except String Unit) (e : String) :
    (saveFile w).1 = Except.ok () ∧
    ((∃ msg, w = Except.error msg) → (saveFile w).2 = true) ∧
    loadFile (Except.error e) = Except.ok [] := by
  refine ⟨?_, ?_, rfl⟩
  · cases w <;> rfl
  · intro hmsg
    obtain ⟨msg, hw⟩ := hmsg
    subst hw
    rfl

theorem persistence_error_handling_witness :
    (saveFile (Except.error "EIO")).1 = Except.ok () ∧
    (saveFile (Except.error "EIO")).2 = true ∧
    loadFile (Except.error "bad json") = Except.ok [] :=
  ⟨(persistence_error_handling (Except.error "EIO") "bad json").1,
    (persistence_error_handling (Except.error "EIO") "bad json").2.1
      ⟨"EIO", rfl⟩,
    (persistence_error_handling (Except.error "EIO") "bad json").2.2⟩

/-- C10: the cosine-similarity helper is total over exact rationals: when
either input vector has zero norm (zero sum of squares, hence square root 0)
it returns exactly 0, and whenever the division branch is reached both norms
are nonzero, so the divisor is nonzero and no division by zero occurs —
the hypothesis `sq 0 = 0` is the only property of the square root used. -/
theorem cosineSimilarity_total (sq : ℚ → ℚ) (hs0 : sq 0 = 0)
    (a b : List ℚ) :
    ((dotList a a = 0 ∨ dotList b b = 0) → cosineSimilarity sq a b = 0) ∧
    (sq (dotList a a) ≠ 0 → sq (dotList b b) ≠ 0 →
      sq (dotList a a) * sq (dotList b b) ≠ 0 ∧
      cosineSimilarity sq a b =
        dotList a b / (sq (dotList a a) * sq (dotList b b))) := by
  constructor
  · intro h
    have hcond : sq (dotList a a) = 0 ∨ sq (dotList b b) = 0 := by
      rcases h with h | h
      · exact Or.inl (by rw [h, hs0])
      · exact Or.inr (by rw [h, hs0])
    simp only [cosineSimilarity]
    rw [if_pos hcond]
  · intro ha hb
    refine ⟨mul_ne_zero ha hb, ?_⟩
    simp only [cosineSimilarity]
    rw [if_neg (by
      push_neg
      exact ⟨ha, hb⟩)]

theorem cosineSimilarity_total_witness :
    ((id (0 : ℚ)) = 0) ∧ (dotList [(0 : ℚ)] [0] = 0) ∧
    cosineSimilarity id [(0 : ℚ)] [1] = 0 := by
  have h0 : dotList [(0 : ℚ)] [0] = 0 := by norm_num [dotList]
  exact ⟨rfl, h0, (cosineSimilarity_total id rfl [0] [1]).1 (Or.inl h0)⟩

end Neo
